import Mathlib

/-!
Verification of the `nbody` gravitational simulator (Rust).

Shallow embedding of `src/body.rs`, `src/simulator.rs`, `src/integrator.rs`
and `src/config.rs`.  Scalars of type `f64` are modelled by real numbers
(ideal arithmetic); `[f64; 3]` and `[f64; 6]` arrays by `Fin 3 → ℝ`
and `Fin 6 → ℝ`; `Vec<Body>` by `List (Body _)`; `for i in a..b` loops by
maps/folds over the corresponding index lists; in-place mutation by
explicit state passing.  Fallible parsing (`std::io::Result`) is modelled
by `Except String`.  File / console I/O of the original program is not
modelled (the `output_file` field of `Simulator` and CSV writing are
elided; they do not affect the bodies, the time, or any value the claims
are about).
-/

namespace NBody

/-- Gravitational constant `G` (`simulator.rs`). -/
def G : ℝ := 6.67430e-11

/-- `Body` (`body.rs`): a point mass with mass, position, velocity and a
transient acceleration.  Generic in the scalar type so that the config
parser can be exercised over `ℚ` while the physics runs over `ℝ`. -/
structure Body (K : Type) where
  mass : K
  position : Fin 3 → K
  velocity : Fin 3 → K
  acceleration : Fin 3 → K

instance {K : Type} [Zero K] : Inhabited (Body K) :=
  ⟨⟨0, fun _ => 0, fun _ => 0, fun _ => 0⟩⟩

/-- `Body::new` (`body.rs`): acceleration initialised to `[0.0; 3]`. -/
def Body.new {K : Type} [Zero K] (mass : K) (position velocity : Fin 3 → K) : Body K :=
  { mass := mass, position := position, velocity := velocity, acceleration := fun _ => 0 }

noncomputable section

/-- `Body::vector_to` (`body.rs`). -/
def Body.vector_to (self other : Body ℝ) : Fin 3 → ℝ :=
  fun d => other.position d - self.position d

/-- `Body::distance_to` (`body.rs`): Euclidean distance. -/
def Body.distance_to (self other : Body ℝ) : ℝ :=
  Real.sqrt ((other.position 0 - self.position 0) * (other.position 0 - self.position 0) +
    (other.position 1 - self.position 1) * (other.position 1 - self.position 1) +
    (other.position 2 - self.position 2) * (other.position 2 - self.position 2))

/-- `Body::reset_acceleration` (`body.rs`). -/
def Body.reset_acceleration (b : Body ℝ) : Body ℝ :=
  { b with acceleration := fun _ => 0 }

/-- The index pairs `(i, j)` visited by the nested loops
`for i in 0..n { for j in (i+1)..n { ... } }` used by
`Simulator::compute_forces` and `Simulator::potential_energy`. -/
def pairIndices (n : ℕ) : List (ℕ × ℕ) :=
  (List.range n).flatMap fun i => (List.range' (i + 1) (n - (i + 1))).map fun j => (i, j)

/-- Loop body of the pair loop in `Simulator::compute_forces`
(`simulator.rs` lines 82-99): displacement, distance, and the guarded
Newton's-third-law acceleration updates on bodies `i` and `j`. -/
def computeForcesPair (bs : List (Body ℝ)) (p : ℕ × ℕ) : List (Body ℝ) :=
  let bi := bs.getD p.1 default
  let bj := bs.getD p.2 default
  let r_vec := bi.vector_to bj
  let r := Real.sqrt (r_vec 0 * r_vec 0 + r_vec 1 * r_vec 1 + r_vec 2 * r_vec 2)
  if 0 < r then
    let force_over_dist_cubed := G * bi.mass * bj.mass / (r * r * r)
    (bs.set p.1
        { bi with acceleration := fun d => bi.acceleration d + force_over_dist_cubed * r_vec d / bi.mass }).set
      p.2
      { bj with acceleration := fun d => bj.acceleration d - force_over_dist_cubed * r_vec d / bj.mass }
  else bs

/-- `Simulator::compute_forces` (`simulator.rs`): reset all accelerations,
then accumulate the pairwise gravitational contributions over all pairs
`i < j`. -/
def Simulator.compute_forces (bodies : List (Body ℝ)) : List (Body ℝ) :=
  let reset := bodies.map Body.reset_acceleration
  (pairIndices reset.length).foldl computeForcesPair reset

/-- `Simulator::gravitational_force` (`simulator.rs`): force magnitude,
guarded against non-positive distance. -/
def Simulator.gravitational_force (mass1 mass2 distance : ℝ) : ℝ :=
  if 0 < distance then G * mass1 * mass2 / (distance * distance) else 0

/-- `DerivativeFunction` (`integrator.rs`): `fn(&mut [Body])`.  A Rust
mutable-slice function can rearrange its elements but never change the
slice's length, so the embedding carries that fact as a field. -/
structure DerivativeFunction where
  toFun : List (Body ℝ) → List (Body ℝ)
  length_toFun : ∀ bs, (toFun bs).length = bs.length

/-- `RungeKuttaFehlberg` (`integrator.rs`): coefficient tables. -/
structure RungeKuttaFehlberg where
  c : List ℝ
  a : List ℝ
  b : List (List ℝ)
  b5 : List ℝ
  b4 : List ℝ

/-- `RungeKuttaFehlberg::new` (`integrator.rs`): the standard RKF45
coefficients. -/
def RungeKuttaFehlberg.new : RungeKuttaFehlberg where
  c := [0, 1/4, 3/8, 12/13, 1, 1/2]
  a := [0, 1/4, 3/8, 12/13, 1, 1/2]
  b := [[0, 0, 0, 0, 0],
        [1/4, 0, 0, 0, 0],
        [3/32, 9/32, 0, 0, 0],
        [1932/2197, -7200/2197, 7296/2197, 0, 0],
        [439/216, -8, 3680/513, -845/4104, 0],
        [-8/27, 2, -3544/2565, 1859/4104, -11/40]]
  b5 := [16/135, 0, 6656/12825, 28561/56430, -9/50, 2/55]
  b4 := [25/216, 0, 1408/2565, 2197/4104, -1/5, 0]

/-- The k-value recording loops of `RungeKuttaFehlberg::step`
(`integrator.rs` lines 78-85 and 118-125):
`k[stage][i] = dt * (velocity, acceleration)` of body `i`. -/
def kFromState (dt : ℝ) (bs : List (Body ℝ)) : List (Fin 6 → ℝ) :=
  bs.map fun b =>
    ![dt * b.velocity 0, dt * b.velocity 1, dt * b.velocity 2,
      dt * b.acceleration 0, dt * b.acceleration 1, dt * b.acceleration 2]

/-- The intermediate state built by `RungeKuttaFehlberg::step` for a stage
`1 ≤ stage ≤ 5` (`integrator.rs` lines 88-112): restore the initial
snapshot, then add `Σ_{prev < stage} b[stage - 1][prev] * k[prev]` to each
body's position and velocity.  Note the source indexes the coupling table
with `stage - 1`, exactly as reproduced here. -/
def RungeKuttaFehlberg.stageState (rkf : RungeKuttaFehlberg) (init : List (Body ℝ))
    (k : List (List (Fin 6 → ℝ))) (stage : ℕ) : List (Body ℝ) :=
  (List.range init.length).map fun i =>
    let b := init.getD i default
    let coeff : ℕ → ℝ := fun p => (rkf.b.getD (stage - 1) []).getD p 0
    let kv : ℕ → Fin 6 → ℝ := fun p => (k.getD p []).getD i default
    { b with
      position := ![b.position 0 + ∑ p ∈ Finset.range stage, coeff p * kv p 0,
                    b.position 1 + ∑ p ∈ Finset.range stage, coeff p * kv p 1,
                    b.position 2 + ∑ p ∈ Finset.range stage, coeff p * kv p 2],
      velocity := ![b.velocity 0 + ∑ p ∈ Finset.range stage, coeff p * kv p 3,
                    b.velocity 1 + ∑ p ∈ Finset.range stage, coeff p * kv p 4,
                    b.velocity 2 + ∑ p ∈ Finset.range stage, coeff p * kv p 5] }

/-- The stage loop of `RungeKuttaFehlberg::step` (`integrator.rs` lines
76-126): `kUpTo s` is the list `[k[0], ..., k[s]]`.  `k[0]` is the
derivative at the entry state; each later `k[stage]` is the derivative at
that stage's intermediate state. -/
def RungeKuttaFehlberg.kUpTo (rkf : RungeKuttaFehlberg) (df : DerivativeFunction) (dt : ℝ)
    (init : List (Body ℝ)) : ℕ → List (List (Fin 6 → ℝ))
  | 0 => [kFromState dt (df.toFun init)]
  | s + 1 =>
    let prev := rkf.kUpTo df dt init s
    prev ++ [kFromState dt (df.toFun (rkf.stageState init prev (s + 1)))]

/-- `RungeKuttaFehlberg::step` (`integrator.rs`): compute the six k-values,
restore the snapshot, apply the 5th-order update to positions and
velocities, and return the updated ensemble together with the
`(error_5th, error_4th)` pair accumulated by the error loop
(lines 151-168). -/
def RungeKuttaFehlberg.step (rkf : RungeKuttaFehlberg) (bodies : List (Body ℝ)) (dt : ℝ)
    (df : DerivativeFunction) : List (Body ℝ) × ℝ × ℝ :=
  let initial := bodies
  let k := rkf.kUpTo df dt initial 5
  let kv : ℕ → ℕ → Fin 6 → ℝ := fun s i => (k.getD s []).getD i default
  let final := (List.range initial.length).map fun i =>
    let b := initial.getD i default
    let upd : Fin 6 → ℝ := fun d => ∑ s ∈ Finset.range 6, rkf.b5.getD s 0 * kv s i d
    { b with
      position := ![b.position 0 + upd 0, b.position 1 + upd 1, b.position 2 + upd 2],
      velocity := ![b.velocity 0 + upd 3, b.velocity 1 + upd 4, b.velocity 2 + upd 5] }
  let errs := (List.range initial.length).foldl (fun (e : ℝ × ℝ) i =>
    (List.finRange 6).foldl (fun (e : ℝ × ℝ) d =>
      let sol5 := ∑ s ∈ Finset.range 6, rkf.b5.getD s 0 * kv s i d
      let sol4 := ∑ s ∈ Finset.range 6, rkf.b4.getD s 0 * kv s i d
      let diff := |sol5 - sol4|
      (max e.1 diff, max e.2 diff)) e) (0, 0)
  (final, errs.1, errs.2)

/-- `Simulator` (`simulator.rs`).  The optional CSV `output_file` is not
modelled (it never influences bodies or time). -/
structure Simulator where
  bodies : List (Body ℝ)
  time : ℝ
  dt : ℝ
  integrator : RungeKuttaFehlberg

/-- `Simulator::new` (`simulator.rs`): time starts at 0. -/
def Simulator.new (bodies : List (Body ℝ)) (dt : ℝ) : Simulator :=
  { bodies := bodies, time := 0, dt := dt, integrator := RungeKuttaFehlberg.new }

/-- `Simulator::compute_forces` packaged as the `DerivativeFunction`
argument passed by `Simulator::step` (`simulator.rs` line 106). -/
def Simulator.computeForcesFn : DerivativeFunction :=
  ⟨Simulator.compute_forces, fun bodies => by
    have h : ∀ (L : List (ℕ × ℕ)) (l : List (Body ℝ)),
        (L.foldl computeForcesPair l).length = l.length := by
      intro L
      induction L with
      | nil => intro l; rfl
      | cons p t ih =>
        intro l
        rw [List.foldl_cons, ih]
        unfold computeForcesPair
        dsimp only
        split <;> simp
    unfold Simulator.compute_forces
    rw [h]
    simp⟩

/-- `Simulator::step` (`simulator.rs`): integrate one step with
`compute_forces` as the derivative function, then advance time by `dt`.
(The CSV row write is not modelled.) -/
def Simulator.step (s : Simulator) : Simulator :=
  { s with
    bodies := (s.integrator.step s.bodies s.dt Simulator.computeForcesFn).1,
    time := s.time + s.dt }

/-- `Simulator::run` (`simulator.rs`): `for _ in 0..num_steps { self.step() }`. -/
def Simulator.run (s : Simulator) (num_steps : ℕ) : Simulator :=
  (List.range num_steps).foldl (fun st _ => st.step) s

/-- `Simulator::potential_energy` (`simulator.rs`): fold of
`pe -= G * m_i * m_j / r` over all pairs `i < j` with `r > 0`. -/
def Simulator.potential_energy (s : Simulator) : ℝ :=
  (pairIndices s.bodies.length).foldl (fun pe p =>
    let r := (s.bodies.getD p.1 default).distance_to (s.bodies.getD p.2 default)
    if 0 < r then pe - G * (s.bodies.getD p.1 default).mass * (s.bodies.getD p.2 default).mass / r
    else pe) 0

end

/-! ## Config parsing (`config.rs`)

The parser is embedded generically in the scalar type `K` (the Rust code
stores `f64` values but its control flow never depends on which ordered
field the numbers live in), and generically in the numeric literal parser
`parseF64` standing for the Rust standard library's `str::parse::<f64>`,
which is not part of this repository.  The file content is represented by
its list of lines, each line by its list of characters
(`content.lines()` is the first thing the source does), so that the
string manipulation is fully explicit.  `std::io::Result` is modelled by
`Except String`. -/

variable {K : Type}

/-- `SimulationConfig` (`config.rs`). -/
structure SimulationConfig (K : Type) where
  bodies : List (Body K)
  time_step : K
  num_steps : ℕ
  output_file : String

/-- `BodyData` (`config.rs`): the per-section accumulator. -/
structure BodyData (K : Type) where
  mass : K
  position_x : K
  position_y : K
  position_z : K
  velocity_x : K
  velocity_y : K
  velocity_z : K

/-- `BodyData::new` (`config.rs`): all fields zero. -/
def BodyData.new [Zero K] : BodyData K := ⟨0, 0, 0, 0, 0, 0, 0⟩

/-- `BodyData::to_body` (`config.rs`): reject a non-positive mass,
otherwise build the `Body`. -/
def BodyData.to_body [Zero K] [LinearOrder K] (bd : BodyData K) : Except String (Body K) :=
  if bd.mass ≤ 0 then Except.error "Body mass must be positive"
  else Except.ok (Body.new bd.mass ![bd.position_x, bd.position_y, bd.position_z]
    ![bd.velocity_x, bd.velocity_y, bd.velocity_z])

/-- Rust `str::trim`, on the character list of a line. -/
def trimChars (cs : List Char) : List Char :=
  ((cs.dropWhile Char.isWhitespace).reverse.dropWhile Char.isWhitespace).reverse

/-- Rust `str::to_lowercase` (ASCII keys and section names only here). -/
def lowerChars (cs : List Char) : List Char := cs.map Char.toLower

/-- Rust `str::find(c)` followed by splitting at that position: `none`
when `c` does not occur, otherwise the part before the first `c` and the
part after it. -/
def splitAtFirst (c : Char) (cs : List Char) : Option (List Char × List Char) :=
  match cs.dropWhile (fun x => x ≠ c) with
  | [] => none
  | _ :: tail => some (cs.takeWhile (fun x => x ≠ c), tail)

/-- The inline-comment stripping of `parse_ini_content` (`config.rs` lines
70-76): truncate at the first `#`, trim, truncate at the first `;`, trim. -/
def stripInlineComment (cs : List Char) : List Char :=
  trimChars ((trimChars (cs.takeWhile fun c => c ≠ '#')).takeWhile fun c => c ≠ ';')

/-- The `key=value` handling of `parse_ini_content` (`config.rs` lines
66-89): split at the first `=`, lower-case the key, strip comments from the
value, and store a successfully parsed number into the matching field. -/
def applyKeyValue (parseF64 : List Char → Option K) (bd : BodyData K) (trimmed : List Char) :
    BodyData K :=
  match splitAtFirst '=' trimmed with
  | none => bd
  | some (rawKey, rawValue) =>
    let key := lowerChars (trimChars rawKey)
    let value_str := stripInlineComment (trimChars rawValue)
    match parseF64 value_str with
    | none => bd
    | some value =>
      if key = "mass".data then { bd with mass := value }
      else if key = "position_x".data then { bd with position_x := value }
      else if key = "position_y".data then { bd with position_y := value }
      else if key = "position_z".data then { bd with position_z := value }
      else if key = "velocity_x".data then { bd with velocity_x := value }
      else if key = "velocity_y".data then { bd with velocity_y := value }
      else if key = "velocity_z".data then { bd with velocity_z := value }
      else bd

/-- Flushing the pending section (`config.rs` lines 51-55 and 95-99): push
the body if `to_body` succeeds, silently drop it otherwise. -/
def flushBodyData [Zero K] [LinearOrder K] (bodies : List (Body K)) (bd : Option (BodyData K)) :
    List (Body K) :=
  match bd with
  | some bd =>
    match bd.to_body with
    | Except.ok b => bodies ++ [b]
    | Except.error _ => bodies
  | none => bodies

/-- The per-line state transition of `parse_ini_content` (`config.rs`
lines 40-92). -/
def parseLine [Zero K] [LinearOrder K] (parseF64 : List Char → Option K)
    (st : List (Body K) × Option (BodyData K)) (line : List Char) :
    List (Body K) × Option (BodyData K) :=
  let trimmed := trimChars line
  if trimmed.isEmpty || trimmed.headD ' ' = '#' || trimmed.headD ' ' = ';' then st
  else if trimmed.headD ' ' = '[' && trimmed.getLastD ' ' = ']' then
    let bodies := flushBodyData st.1 st.2
    let section_name := (trimmed.drop 1).dropLast
    if "body".data.isPrefixOf (lowerChars section_name) then (bodies, some BodyData.new)
    else (bodies, none)
  else
    match st.2 with
    | some bd => (st.1, some (applyKeyValue parseF64 bd trimmed))
    | none => st

/-- `parse_ini_content` (`config.rs`): fold the line transition over the
content, flush the last pending section, and fail only when no valid body
was collected. -/
def parse_ini_content [Zero K] [LinearOrder K] [OfNat K 86400]
    (parseF64 : List Char → Option K) (lines : List (List Char)) :
    Except String (SimulationConfig K) :=
  let st := lines.foldl (parseLine parseF64) ([], none)
  let bodies := flushBodyData st.1 st.2
  if bodies.isEmpty then Except.error "No bodies found in configuration file"
  else Except.ok { bodies := bodies, time_step := 86400, num_steps := 1000,
                   output_file := "results.csv" }

/-- Digit-string to number, used by the stand-in for `str::parse::<f64>`. -/
def parseNatDigits (cs : List Char) : Option ℕ :=
  match cs with
  | [] => none
  | _ =>
    cs.foldl (fun acc c =>
      acc.bind fun n => if c.isDigit then some (10 * n + (c.toNat - '0'.toNat)) else none)
      (some 0)

/-- Stand-in for Rust's `str::parse::<f64>` restricted to the (optionally
negated) integer literals used in the concrete configurations below; the
claims under test do not depend on the full floating-point grammar. -/
def parseDecimal (cs : List Char) : Option ℚ :=
  match cs with
  | '-' :: rest => (parseNatDigits rest).map fun n => -(n : ℚ)
  | _ => (parseNatDigits cs).map fun n => (n : ℚ)

/-! ## Concrete inputs and helper accessors used by the claim theorems -/

instance {K : Type} [DecidableEq K] : DecidableEq (Body K) := fun x y =>
  decidable_of_iff (x.mass = y.mass ∧ x.position = y.position ∧ x.velocity = y.velocity ∧
    x.acceleration = y.acceleration) (by cases x; cases y; simp)

instance {K : Type} [DecidableEq K] : DecidableEq (SimulationConfig K) := fun x y =>
  decidable_of_iff (x.bodies = y.bodies ∧ x.time_step = y.time_step ∧
    x.num_steps = y.num_steps ∧ x.output_file = y.output_file) (by cases x; cases y; simp)

instance {E A : Type} [DecidableEq E] [DecidableEq A] : DecidableEq (Except E A)
  | .error e, .error f => decidable_of_iff (e = f) (by simp)
  | .error _, .ok _ => isFalse (by simp)
  | .ok _, .error _ => isFalse (by simp)
  | .ok a, .ok b => decidable_of_iff (a = b) (by simp)

/-- A configuration holding one body section with non-positive mass and
one valid section. -/
def configWithNonPositiveMass : List (List Char) :=
  ["[Body1]".data, "mass = 0".data, "position_x = 1".data,
   "[Body2]".data, "mass = 5".data, "velocity_y = 2".data]

/-- A well-formed one-body configuration. -/
def goodConfigLines : List (List Char) := ["[Body1]".data, "mass = 5".data]

/-- The parse result of `goodConfigLines`. -/
def goodConfig : SimulationConfig ℚ :=
  { bodies := [Body.new ((5 : ℕ) : ℚ) ![0, 0, 0] ![0, 0, 0]],
    time_step := 86400, num_steps := 1000, output_file := "results.csv" }

noncomputable section

/-- Mass of the `i`-th body of an ensemble. -/
def massOf (bs : List (Body ℝ)) (i : ℕ) : ℝ := (bs.getD i default).mass

/-- Position of the `i`-th body of an ensemble. -/
def posOf (bs : List (Body ℝ)) (i : ℕ) : Fin 3 → ℝ := (bs.getD i default).position

/-- Velocity of the `i`-th body of an ensemble. -/
def velOf (bs : List (Body ℝ)) (i : ℕ) : Fin 3 → ℝ := (bs.getD i default).velocity

/-- Acceleration of the `i`-th body of an ensemble. -/
def accOf (bs : List (Body ℝ)) (i : ℕ) : Fin 3 → ℝ := (bs.getD i default).acceleration

/-- The change `computeForcesPair bs p` makes to the acceleration of body
`m` in component `d`: the guarded `±G·m_i·m_j/r³·r_vec/m` updates of the
pair loop, read off the same ensemble `bs`. -/
def pairContrib (bs : List (Body ℝ)) (p : ℕ × ℕ) (m : ℕ) (d : Fin 3) : ℝ :=
  let bi := bs.getD p.1 default
  let bj := bs.getD p.2 default
  let r_vec := bi.vector_to bj
  let r := Real.sqrt (r_vec 0 * r_vec 0 + r_vec 1 * r_vec 1 + r_vec 2 * r_vec 2)
  if 0 < r then
    (if p.1 = m then G * bi.mass * bj.mass / (r * r * r) * r_vec d / bi.mass else 0) +
      (if p.2 = m then -(G * bi.mass * bj.mass / (r * r * r) * r_vec d / bj.mass) else 0)
  else 0

/-- Two unit-mass bodies on the x-axis at distance `1`. -/
def twoBodyX : List (Body ℝ) :=
  [Body.new 1 ![0, 0, 0] ![0, 0, 0], Body.new 1 ![1, 0, 0] ![0, 0, 0]]

/-- One body at the origin moving along `x`: concrete ensemble exhibiting
the stage-coupling off-by-one. -/
def singleBodyMoving : List (Body ℝ) := [Body.new 1 ![0, 0, 0] ![1, 0, 0]]

/-- One body at rest at the origin. -/
def originBodyAtRest : List (Body ℝ) := [Body.new 1 ![0, 0, 0] ![0, 0, 0]]

/-- A derivative function that sets every acceleration to `(1, 0, 0)`:
a legal `fn(&mut [Body])` used to separate the returned accelerations
from the stage-6 values. -/
def constAccelFn : DerivativeFunction :=
  ⟨fun bs => bs.map fun b => { b with acceleration := ![1, 0, 0] }, fun bs => by simp⟩

/-- The do-nothing derivative function (a legal `fn(&mut [Body])`). -/
def identityFn : DerivativeFunction := ⟨fun bs => bs, fun _ => rfl⟩

end

/-! ## Theorems -/

theorem getD_map_range {α : Type} [Inhabited α] (f : ℕ → α) (n i : ℕ) (h : i < n) :
    ((List.range n).map f).getD i default = f i := by
  rw [List.getD_eq_getElem?_getD, List.getElem?_map, List.getElem?_range h]
  rfl

/-- C1 (code bug): `RungeKuttaFehlberg::step` indexes the coupling table
with `b[stage - 1]`, so stage 2 (index 1) uses the all-zero row instead of
the canonical RKF45 row `[1/4, 0, 0, 0, 0]`.  At the concrete one-body
ensemble `singleBodyMoving` with `dt = 1` and the repository's own
derivative function, the intermediate state at which the stage-2
derivative is evaluated has x-position `0`, while the snapshot plus the
canonical row applied to `k[0]` — what the claim prescribes — has
x-position `1/4`. -/
theorem rkf_stage2_coupling_row_bug :
    posOf (RungeKuttaFehlberg.new.stageState singleBodyMoving
      (RungeKuttaFehlberg.new.kUpTo Simulator.computeForcesFn 1 singleBodyMoving 0) 1) 0 0 = 0 ∧
    posOf singleBodyMoving 0 0 +
      (RungeKuttaFehlberg.new.b.getD 1 []).getD 0 0 *
        ((RungeKuttaFehlberg.new.kUpTo Simulator.computeForcesFn 1 singleBodyMoving 0).getD 0
          []).getD 0 default 0 = 1 / 4 ∧
    (0 : ℝ) ≠ 1 / 4 := by
  have h1 : Simulator.compute_forces singleBodyMoving = singleBodyMoving := rfl
  refine ⟨?_, ?_, by norm_num⟩
  · simp [RungeKuttaFehlberg.stageState, RungeKuttaFehlberg.kUpTo, Simulator.computeForcesFn,
      h1, posOf, singleBodyMoving, Body.new, kFromState, RungeKuttaFehlberg.new,
      getD_map_range, List.getD]
  · simp only [RungeKuttaFehlberg.kUpTo, Simulator.computeForcesFn]
    rw [h1]
    simp [posOf, singleBodyMoving, Body.new, kFromState, RungeKuttaFehlberg.new, List.getD]

/-- C10: for every pair of masses and every distance `d ≤ 0` (including
`d = 0`), `Simulator::gravitational_force` returns exactly `0`; the
division `G·m1·m2/d²` is evaluated only in the `d > 0` branch of the
guard. -/
theorem gravitational_force_nonpositive_distance (mass1 mass2 distance : ℝ)
    (h : distance ≤ 0) : Simulator.gravitational_force mass1 mass2 distance = 0 := by
  unfold Simulator.gravitational_force
  rw [if_neg (not_lt.mpr h)]

/-- Witness for C10 at masses `3`, `5` and distance `0`. -/
theorem gravitational_force_nonpositive_distance_witness :
    Simulator.gravitational_force 3 5 0 = 0 :=
  gravitational_force_nonpositive_distance 3 5 0 le_rfl

theorem rkfStep_getD (rkf : RungeKuttaFehlberg) (bodies : List (Body ℝ)) (dt : ℝ)
    (df : DerivativeFunction) (i : ℕ) (h : i < bodies.length) :
    (rkf.step bodies dt df).1.getD i default =
      (let b := bodies.getD i default
       let kv : ℕ → Fin 6 → ℝ := fun s => ((rkf.kUpTo df dt bodies 5).getD s []).getD i default
       let upd : Fin 6 → ℝ := fun d => ∑ s ∈ Finset.range 6, rkf.b5.getD s 0 * kv s d
       { b with
         position := ![b.position 0 + upd 0, b.position 1 + upd 1, b.position 2 + upd 2],
         velocity := ![b.velocity 0 + upd 3, b.velocity 1 + upd 4, b.velocity 2 + upd 5] }) := by
  show ((List.range bodies.length).map _).getD i default = _
  rw [getD_map_range _ _ _ h]

theorem rkfStep_length (rkf : RungeKuttaFehlberg) (bodies : List (Body ℝ)) (dt : ℝ)
    (df : DerivativeFunction) : (rkf.step bodies dt df).1.length = bodies.length := by
  simp [RungeKuttaFehlberg.step]

theorem rkfStep_massOf (rkf : RungeKuttaFehlberg) (bodies : List (Body ℝ)) (dt : ℝ)
    (df : DerivativeFunction) (i : ℕ) :
    massOf (rkf.step bodies dt df).1 i = massOf bodies i := by
  rcases lt_or_le i bodies.length with h | h
  · unfold massOf
    rw [rkfStep_getD rkf bodies dt df i h]
  · unfold massOf
    rw [List.getD_eq_default, List.getD_eq_default]
    · exact h
    · rw [rkfStep_length]; exact h

/-- C3 counterexample: with the one-body ensemble `originBodyAtRest`
(entry acceleration `0`) and a derivative function that sets every
acceleration to `1` along `x`, the stage-6 derivative evaluation yields
acceleration `1`, yet after `RungeKuttaFehlberg::step` returns the body's
acceleration is `0` — the final `copy_from_slice` restores the entry
accelerations, so they do not hold the stage-6 values. -/
theorem step_acceleration_not_stage6 :
    accOf (RungeKuttaFehlberg.new.step originBodyAtRest 1 constAccelFn).1 0 0 = 0 ∧
    accOf (constAccelFn.toFun (RungeKuttaFehlberg.new.stageState originBodyAtRest
      (RungeKuttaFehlberg.new.kUpTo constAccelFn 1 originBodyAtRest 4) 5)) 0 0 = 1 ∧
    (0 : ℝ) ≠ 1 := by
  refine ⟨?_, ?_, by norm_num⟩
  · rw [accOf, rkfStep_getD _ _ _ _ 0 (by simp [originBodyAtRest])]
    simp [originBodyAtRest, Body.new]
  · simp [constAccelFn, accOf, RungeKuttaFehlberg.stageState, originBodyAtRest, List.range_succ]

/-- C3 (amended): after `RungeKuttaFehlberg::step` returns, each body's
position and velocity hold the fully-updated 5th-order state
(`S₀ + Σ b5[s]·k[s]`), while its acceleration equals its value at entry to
the step (the final restore of the snapshot `S₀` overwrites the stage-6
accelerations). -/
theorem step_final_state (rkf : RungeKuttaFehlberg) (bodies : List (Body ℝ)) (dt : ℝ)
    (df : DerivativeFunction) (i : ℕ) (hi : i < bodies.length) :
    accOf (rkf.step bodies dt df).1 i = accOf bodies i ∧
    (∀ d3 : Fin 3, posOf (rkf.step bodies dt df).1 i d3 =
      posOf bodies i d3 + ∑ s ∈ Finset.range 6, rkf.b5.getD s 0 *
        ((rkf.kUpTo df dt bodies 5).getD s []).getD i default ⟨d3.val, by omega⟩) ∧
    (∀ d3 : Fin 3, velOf (rkf.step bodies dt df).1 i d3 =
      velOf bodies i d3 + ∑ s ∈ Finset.range 6, rkf.b5.getD s 0 *
        ((rkf.kUpTo df dt bodies 5).getD s []).getD i default ⟨d3.val + 3, by omega⟩) := by
  refine ⟨?_, ?_, ?_⟩
  · simp only [accOf, rkfStep_getD rkf bodies dt df i hi]
  · intro d3
    simp only [posOf, rkfStep_getD rkf bodies dt df i hi]
    fin_cases d3 <;> simp
  · intro d3
    simp only [velOf, rkfStep_getD rkf bodies dt df i hi]
    fin_cases d3 <;> simp

/-- Witness for C3 (amended) at the one-body ensemble `originBodyAtRest`,
`dt = 1`, the constant-acceleration derivative function, body `0`,
x-components. -/
theorem step_final_state_witness :
    accOf (RungeKuttaFehlberg.new.step originBodyAtRest 1 constAccelFn).1 0 =
      accOf originBodyAtRest 0 ∧
    posOf (RungeKuttaFehlberg.new.step originBodyAtRest 1 constAccelFn).1 0 0 =
      posOf originBodyAtRest 0 0 + ∑ s ∈ Finset.range 6, RungeKuttaFehlberg.new.b5.getD s 0 *
        ((RungeKuttaFehlberg.new.kUpTo constAccelFn 1 originBodyAtRest 5).getD s
          []).getD 0 default ⟨0, by omega⟩ ∧
    velOf (RungeKuttaFehlberg.new.step originBodyAtRest 1 constAccelFn).1 0 0 =
      velOf originBodyAtRest 0 0 + ∑ s ∈ Finset.range 6, RungeKuttaFehlberg.new.b5.getD s 0 *
        ((RungeKuttaFehlberg.new.kUpTo constAccelFn 1 originBodyAtRest 5).getD s
          []).getD 0 default ⟨0 + 3, by omega⟩ :=
  ⟨(step_final_state RungeKuttaFehlberg.new originBodyAtRest 1 constAccelFn 0
      (by simp [originBodyAtRest])).1,
   (step_final_state RungeKuttaFehlberg.new originBodyAtRest 1 constAccelFn 0
      (by simp [originBodyAtRest])).2.1 0,
   (step_final_state RungeKuttaFehlberg.new originBodyAtRest 1 constAccelFn 0
      (by simp [originBodyAtRest])).2.2 0⟩

theorem simulator_step_dt (s : Simulator) : s.step.dt = s.dt := rfl

theorem simulator_step_time (s : Simulator) : s.step.time = s.time + s.dt := rfl

theorem iterate_step_dt (s : Simulator) (n : ℕ) : (Simulator.step^[n] s).dt = s.dt := by
  induction n with
  | zero => rfl
  | succ n ih => rw [Function.iterate_succ_apply', simulator_step_dt, ih]

theorem iterate_step_time (s : Simulator) (n : ℕ) :
    (Simulator.step^[n] s).time = s.time + n * s.dt := by
  induction n with
  | zero => simp
  | succ n ih =>
    rw [Function.iterate_succ_apply', simulator_step_time, ih, iterate_step_dt]
    push_cast
    ring

theorem run_eq_iterate_step (s : Simulator) (n : ℕ) : s.run n = Simulator.step^[n] s := by
  unfold Simulator.run
  induction n with
  | zero => rfl
  | succ n ih =>
    rw [List.range_succ, List.foldl_append, ih, Function.iterate_succ_apply']
    rfl

/-- C8: `Simulator::run(n)` performs exactly the `n`-fold iteration of
`step()` in order, each step adds `dt` to the clock, and from a freshly
constructed simulator the elapsed time after `run(n)` is `n·dt` (the
ideal-arithmetic value of the `n`-fold repeated addition of `dt`). -/
theorem run_steps_and_time (s : Simulator) (n : ℕ) :
    s.run n = Simulator.step^[n] s ∧ (s.run n).time = s.time + n * s.dt ∧
      ∀ (bodies : List (Body ℝ)) (dt : ℝ), ((Simulator.new bodies dt).run n).time = n * dt := by
  refine ⟨run_eq_iterate_step s n, ?_, ?_⟩
  · rw [run_eq_iterate_step, iterate_step_time]
  · intro bodies dt
    rw [run_eq_iterate_step, iterate_step_time]
    simp [Simulator.new]

/-- C9: a step of the integrator — and hence `Simulator::step` and
`Simulator::run` — preserves the number of bodies and every body's mass
(for any derivative function that preserves masses; in fact the final
rebuild from the snapshot preserves them regardless). -/
theorem step_preserves_count_and_mass (rkf : RungeKuttaFehlberg) (bodies : List (Body ℝ))
    (dt : ℝ) (df : DerivativeFunction)
    (hdf : ∀ (bs : List (Body ℝ)) (j : ℕ), massOf (df.toFun bs) j = massOf bs j) :
    ((rkf.step bodies dt df).1.length = bodies.length ∧
      ∀ i, massOf (rkf.step bodies dt df).1 i = massOf bodies i) ∧
    (∀ s : Simulator, s.step.bodies.length = s.bodies.length ∧
      ∀ i, massOf s.step.bodies i = massOf s.bodies i) ∧
    ∀ (s : Simulator) (n : ℕ), (s.run n).bodies.length = s.bodies.length ∧
      ∀ i, massOf (s.run n).bodies i = massOf s.bodies i := by
  have hiter : ∀ (m : ℕ) (st : Simulator),
      (Simulator.step^[m] st).bodies.length = st.bodies.length ∧
        ∀ i, massOf (Simulator.step^[m] st).bodies i = massOf st.bodies i := by
    intro m
    induction m with
    | zero => exact fun st => ⟨rfl, fun i => rfl⟩
    | succ m ih =>
      intro st
      rw [Function.iterate_succ_apply]
      refine ⟨?_, ?_⟩
      · rw [(ih st.step).1]
        exact rkfStep_length _ _ _ _
      · intro i
        rw [(ih st.step).2 i]
        exact rkfStep_massOf _ _ _ _ i
  refine ⟨⟨rkfStep_length _ _ _ _, fun i => rkfStep_massOf _ _ _ _ i⟩, ?_, ?_⟩
  · exact fun s => ⟨rkfStep_length _ _ _ _, fun i => rkfStep_massOf _ _ _ _ i⟩
  · intro s n
    rw [run_eq_iterate_step]
    exact hiter n s

/-- Witness for C9 with the do-nothing derivative function on
`originBodyAtRest`. -/
theorem step_preserves_count_and_mass_witness :
    (RungeKuttaFehlberg.new.step originBodyAtRest 1 identityFn).1.length =
      originBodyAtRest.length ∧
    massOf (RungeKuttaFehlberg.new.step originBodyAtRest 1 identityFn).1 0 =
      massOf originBodyAtRest 0 :=
  ⟨(step_preserves_count_and_mass RungeKuttaFehlberg.new originBodyAtRest 1 identityFn
      (fun _ _ => rfl)).1.1,
   (step_preserves_count_and_mass RungeKuttaFehlberg.new originBodyAtRest 1 identityFn
      (fun _ _ => rfl)).1.2 0⟩

theorem foldl_pair_max {α : Type} (g : α → ℝ) : ∀ (l : List α) (a b : ℝ),
    l.foldl (fun (e : ℝ × ℝ) x => (max e.1 (g x), max e.2 (g x))) (a, b) =
      ((l.map g).foldl max a, (l.map g).foldl max b) := by
  intro l
  induction l with
  | nil => intro a b; rfl
  | cons x t ih => intro a b; simp only [List.foldl_cons, List.map_cons]; exact ih _ _

theorem foldl_nested {α β γ : Type} (f : γ → β → γ) (h : α → List β) (l : List α) :
    ∀ init : γ, l.foldl (fun acc x => (h x).foldl f acc) init = (l.flatMap h).foldl f init := by
  induction l with
  | nil => intro init; rfl
  | cons x t ih =>
    intro init
    simp only [List.foldl_cons, List.flatMap_cons, List.foldl_append]
    exact ih _

/-- C4: `RungeKuttaFehlberg::step` returns a pair whose two components are
equal, each being the running maximum (from `0`) over all bodies and all 6
state components of `|Σ b5[s]·k[s] − Σ b4[s]·k[s]|`, both weighted sums
taken over the same k-values. -/
theorem step_error_estimate_pair (rkf : RungeKuttaFehlberg) (bodies : List (Body ℝ)) (dt : ℝ)
    (df : DerivativeFunction) :
    let kv : ℕ → ℕ → Fin 6 → ℝ := fun s i => ((rkf.kUpTo df dt bodies 5).getD s []).getD i default
    let diff : ℕ → Fin 6 → ℝ := fun i d =>
      |(∑ s ∈ Finset.range 6, rkf.b5.getD s 0 * kv s i d) -
        ∑ s ∈ Finset.range 6, rkf.b4.getD s 0 * kv s i d|
    (rkf.step bodies dt df).2.1 = (rkf.step bodies dt df).2.2 ∧
    (rkf.step bodies dt df).2.1 =
      ((List.range bodies.length).flatMap fun i =>
        (List.finRange 6).map fun d => diff i d).foldl max 0 := by
  intro kv diff
  have hsnd : (rkf.step bodies dt df).2 =
      (List.range bodies.length).foldl (fun (e : ℝ × ℝ) i =>
        (List.finRange 6).foldl (fun (e : ℝ × ℝ) d =>
          (max e.1 (diff i d), max e.2 (diff i d))) e) (0, 0) := rfl
  have hflat : (List.range bodies.length).foldl (fun (e : ℝ × ℝ) i =>
      (List.finRange 6).foldl (fun (e : ℝ × ℝ) d =>
        (max e.1 (diff i d), max e.2 (diff i d))) e) (0, 0) =
      (((List.range bodies.length).flatMap fun i =>
          (List.finRange 6).map fun d => (i, d)).foldl
        (fun (e : ℝ × ℝ) p => (max e.1 (diff p.1 p.2), max e.2 (diff p.1 p.2))) (0, 0)) := by
    rw [← foldl_nested (fun (e : ℝ × ℝ) p => (max e.1 (diff p.1 p.2), max e.2 (diff p.1 p.2)))
      (fun i => (List.finRange 6).map fun d => (i, d)) (List.range bodies.length) (0, 0)]
    congr 1
  have hmap : (((List.range bodies.length).flatMap fun i =>
      (List.finRange 6).map fun d => (i, d)).map fun p => diff p.1 p.2) =
      ((List.range bodies.length).flatMap fun i =>
        (List.finRange 6).map fun d => diff i d) := by
    simp [List.map_flatMap, List.map_map, Function.comp_def]
  rw [hsnd, hflat, foldl_pair_max, hmap]
  exact ⟨rfl, rfl⟩

theorem to_body_ok_mass_pos {K : Type} [Zero K] [LinearOrder K] {bd : BodyData K} {b : Body K}
    (h : bd.to_body = Except.ok b) : 0 < b.mass := by
  unfold BodyData.to_body at h
  split at h
  · simp at h
  · next hle =>
    cases h
    simpa [Body.new] using lt_of_not_le hle

theorem mem_flushBodyData {K : Type} [Zero K] [LinearOrder K] {bodies : List (Body K)}
    {bd : Option (BodyData K)} {x : Body K} (hx : x ∈ flushBodyData bodies bd) :
    x ∈ bodies ∨ 0 < x.mass := by
  unfold flushBodyData at hx
  cases bd with
  | none => exact Or.inl hx
  | some bd =>
    dsimp only at hx
    cases hto : bd.to_body with
    | error e => rw [hto] at hx; exact Or.inl hx
    | ok b =>
      rw [hto] at hx
      rcases List.mem_append.mp hx with h | h
      · exact Or.inl h
      · rw [List.mem_singleton.mp h]
        exact Or.inr (to_body_ok_mass_pos hto)

theorem parseLine_mass_pos {K : Type} [Zero K] [LinearOrder K]
    (parseF64 : List Char → Option K) (st : List (Body K) × Option (BodyData K))
    (line : List Char) (hst : ∀ x ∈ st.1, 0 < x.mass) :
    ∀ x ∈ (parseLine parseF64 st line).1, 0 < x.mass := by
  intro x hx
  unfold parseLine at hx
  dsimp only at hx
  split at hx
  · exact hst x hx
  · split at hx
    · split at hx <;>
      · rcases mem_flushBodyData hx with h | h
        · exact hst x h
        · exact h
    · cases h2 : st.2 with
      | some bd => rw [h2] at hx; exact hst x hx
      | none => rw [h2] at hx; exact hst x hx

theorem foldl_parseLine_mass_pos {K : Type} [Zero K] [LinearOrder K]
    (parseF64 : List Char → Option K) (lines : List (List Char)) :
    ∀ (st : List (Body K) × Option (BodyData K)), (∀ x ∈ st.1, 0 < x.mass) →
      ∀ x ∈ (lines.foldl (parseLine parseF64) st).1, 0 < x.mass := by
  induction lines with
  | nil => exact fun st hst => hst
  | cons line rest ih =>
    intro st hst
    exact ih (parseLine parseF64 st line) (parseLine_mass_pos parseF64 st line hst)

/-- C5 (amended): a body section with non-positive mass is silently
dropped (its `to_body` failure is discarded), so every body of a
successfully parsed configuration has strictly positive mass; the parse
fails only when no valid body remains. -/
theorem parse_ok_masses_positive {K : Type} [Zero K] [LinearOrder K] [OfNat K 86400]
    (parseF64 : List Char → Option K) (lines : List (List Char)) (cfg : SimulationConfig K)
    (h : parse_ini_content parseF64 lines = Except.ok cfg) : ∀ b ∈ cfg.bodies, 0 < b.mass := by
  unfold parse_ini_content at h
  dsimp only at h
  split at h
  · simp at h
  · cases h
    intro b hb
    rcases mem_flushBodyData hb with h | h
    · exact foldl_parseLine_mass_pos parseF64 lines ([], none) (by simp) b h
    · exact h

/-- Witness for C5 (amended): the one-section configuration
`goodConfigLines` parses to `goodConfig`, whose single body has positive
mass. -/
theorem parse_ok_masses_positive_witness :
    parse_ini_content parseDecimal goodConfigLines = Except.ok goodConfig ∧
      0 < (goodConfig.bodies.headD default).mass :=
  ⟨by decide,
    parse_ok_masses_positive parseDecimal goodConfigLines goodConfig (by decide)
      (goodConfig.bodies.headD default) (by simp [goodConfig])⟩

theorem sum_map_range_eq {M : Type} [AddCommMonoid M] (f : ℕ → M) (n : ℕ) :
    ((List.range n).map f).sum = ∑ i ∈ Finset.range n, f i := by
  induction n with
  | zero => rfl
  | succ n ih =>
    rw [List.range_succ, List.map_append, List.sum_append, Finset.sum_range_succ, ih]
    simp

theorem sum_map_range'_eq {M : Type} [AddCommMonoid M] (f : ℕ → M) (l : ℕ) :
    ∀ s : ℕ, ((List.range' s l).map f).sum = ∑ j ∈ Finset.Ico s (s + l), f j := by
  induction l with
  | zero => intro s; simp
  | succ l ih =>
    intro s
    rw [List.range'_succ, List.map_cons, List.sum_cons, ih (s + 1)]
    rw [Finset.sum_eq_sum_Ico_succ_bot (by omega : s < s + (l + 1))]
    rw [show s + (l + 1) = s + 1 + l from by omega]

theorem sum_flatMap_eq {M α β : Type} [AddCommMonoid M] (g : β → M) (h : α → List β) :
    ∀ l : List α, ((l.flatMap h).map g).sum = (l.map fun x => ((h x).map g).sum).sum := by
  intro l
  induction l with
  | nil => rfl
  | cons x t ih => simp only [List.flatMap_cons, List.map_append, List.sum_append, ih,
      List.map_cons, List.sum_cons]

theorem sum_pairIndices {M : Type} [AddCommMonoid M] (g : ℕ × ℕ → M) (n : ℕ) :
    ((pairIndices n).map g).sum =
      ∑ i ∈ Finset.range n, ∑ j ∈ Finset.Ico (i + 1) n, g (i, j) := by
  unfold pairIndices
  rw [sum_flatMap_eq, sum_map_range_eq]
  refine Finset.sum_congr rfl fun i hi => ?_
  have hin : i < n := Finset.mem_range.mp hi
  rw [List.map_map, show (g ∘ fun j => (i, j)) = fun j => g (i, j) from rfl,
    sum_map_range'_eq (fun j => g (i, j)) (n - (i + 1)) (i + 1),
    show i + 1 + (n - (i + 1)) = n from by omega]

theorem foldl_add_shift (f : ℝ → ℕ × ℕ → ℝ) (g : ℕ × ℕ → ℝ)
    (hfg : ∀ acc p, f acc p = acc + g p) :
    ∀ (L : List (ℕ × ℕ)) (a : ℝ), L.foldl f a = a + (L.map g).sum := by
  intro L
  induction L with
  | nil => intro a; simp
  | cons p t ih => intro a; rw [List.foldl_cons, hfg, ih, List.map_cons, List.sum_cons]; ring

/-- C6: `Simulator::potential_energy` equals the sum over unordered pairs
`i < j` of `−G·m_i·m_j/d(i,j)`, pairs at zero distance contributing
nothing; consequently a two-body system with positive masses at positive
distance has `potential_energy = −G·m1·m2/r < 0`. -/
theorem potential_energy_pair_sum :
    (∀ s : Simulator, s.potential_energy =
      ∑ i ∈ Finset.range s.bodies.length, ∑ j ∈ Finset.Ico (i + 1) s.bodies.length,
        (if 0 < (s.bodies.getD i default).distance_to (s.bodies.getD j default) then
          -(G * (s.bodies.getD i default).mass * (s.bodies.getD j default).mass /
            (s.bodies.getD i default).distance_to (s.bodies.getD j default)) else 0)) ∧
    ∀ (b1 b2 : Body ℝ) (dt : ℝ), 0 < b1.mass → 0 < b2.mass → 0 < b1.distance_to b2 →
      (Simulator.new [b1, b2] dt).potential_energy =
        -(G * b1.mass * b2.mass / b1.distance_to b2) ∧
      (Simulator.new [b1, b2] dt).potential_energy < 0 := by
  have hgen : ∀ s : Simulator, s.potential_energy =
      ∑ i ∈ Finset.range s.bodies.length, ∑ j ∈ Finset.Ico (i + 1) s.bodies.length,
        (if 0 < (s.bodies.getD i default).distance_to (s.bodies.getD j default) then
          -(G * (s.bodies.getD i default).mass * (s.bodies.getD j default).mass /
            (s.bodies.getD i default).distance_to (s.bodies.getD j default)) else 0) := by
    intro s
    unfold Simulator.potential_energy
    rw [foldl_add_shift _ (fun p =>
      if 0 < (s.bodies.getD p.1 default).distance_to (s.bodies.getD p.2 default) then
        -(G * (s.bodies.getD p.1 default).mass * (s.bodies.getD p.2 default).mass /
          (s.bodies.getD p.1 default).distance_to (s.bodies.getD p.2 default)) else 0)
      (fun acc p => by dsimp only; split <;> ring)]
    rw [sum_pairIndices]
    simp
  refine ⟨hgen, ?_⟩
  intro b1 b2 dt h1 h2 hr
  have hG : (0 : ℝ) < G := by norm_num [G]
  have hpe : (Simulator.new [b1, b2] dt).potential_energy =
      -(G * b1.mass * b2.mass / b1.distance_to b2) := by
    rw [hgen]
    have hbodies : (Simulator.new [b1, b2] dt).bodies = [b1, b2] := rfl
    rw [hbodies]
    simp only [List.length_cons, List.length_nil]
    rw [Finset.sum_range_succ, Finset.sum_range_succ, Finset.sum_range_zero]
    rw [show Finset.Ico (0 + 1) 2 = {1} from by decide,
      show Finset.Ico (1 + 1) 2 = ∅ from by decide]
    rw [Finset.sum_singleton, Finset.sum_empty]
    simp only [List.getD_cons_zero, List.getD_cons_succ]
    rw [if_pos hr]
    ring
  exact ⟨hpe, hpe ▸ neg_lt_zero.mpr (div_pos (mul_pos (mul_pos hG h1) h2) hr)⟩

/-- Witness for C6: two unit-mass bodies at distance `1`. -/
theorem potential_energy_pair_sum_witness :
    (Simulator.new [Body.new 1 ![0, 0, 0] ![0, 0, 0], Body.new 1 ![1, 0, 0] ![0, 0, 0]]
      1).potential_energy =
      -(G * (Body.new (1 : ℝ) ![0, 0, 0] ![0, 0, 0]).mass *
          (Body.new (1 : ℝ) ![1, 0, 0] ![0, 0, 0]).mass /
        (Body.new (1 : ℝ) ![0, 0, 0] ![0, 0, 0]).distance_to
          (Body.new 1 ![1, 0, 0] ![0, 0, 0])) ∧
    (Simulator.new [Body.new 1 ![0, 0, 0] ![0, 0, 0], Body.new 1 ![1, 0, 0] ![0, 0, 0]]
      1).potential_energy < 0 :=
  potential_energy_pair_sum.2 (Body.new 1 ![0, 0, 0] ![0, 0, 0])
    (Body.new 1 ![1, 0, 0] ![0, 0, 0]) 1
    (by simp [Body.new])
    (by simp [Body.new])
    (by rw [show (Body.new (1 : ℝ) ![0, 0, 0] ![0, 0, 0]).distance_to
          (Body.new 1 ![1, 0, 0] ![0, 0, 0]) = 1 from by simp [Body.distance_to, Body.new]]
        norm_num)

theorem getD_set_self (l : List (Body ℝ)) (i : ℕ) (a : Body ℝ) (h : i < l.length) :
    (l.set i a).getD i default = a := by
  simp [List.getD_eq_getElem?_getD, List.getElem?_set_self', h]

theorem getD_set_ne (l : List (Body ℝ)) (i m : ℕ) (a : Body ℝ) (h : i ≠ m) :
    (l.set i a).getD m default = l.getD m default := by
  simp [List.getD_eq_getElem?_getD, List.getElem?_set_ne h]

theorem cfPair_length (bs : List (Body ℝ)) (p : ℕ × ℕ) :
    (computeForcesPair bs p).length = bs.length := by
  unfold computeForcesPair
  dsimp only
  split <;> simp

theorem cfPair_keep (bs : List (Body ℝ)) (p : ℕ × ℕ) (h1 : p.1 < bs.length)
    (h2 : p.2 < bs.length) (m : ℕ) :
    massOf (computeForcesPair bs p) m = massOf bs m ∧
    posOf (computeForcesPair bs p) m = posOf bs m ∧
    velOf (computeForcesPair bs p) m = velOf bs m := by
  unfold computeForcesPair massOf posOf velOf
  dsimp only
  split
  · rcases eq_or_ne p.2 m with h | h
    · subst h
      rw [getD_set_self _ _ _ (by simpa using h2)]
      exact ⟨rfl, rfl, rfl⟩
    · rw [getD_set_ne _ _ _ _ h]
      rcases eq_or_ne p.1 m with h' | h'
      · subst h'
        rw [getD_set_self _ _ _ h1]
        exact ⟨rfl, rfl, rfl⟩
      · rw [getD_set_ne _ _ _ _ h']
        exact ⟨rfl, rfl, rfl⟩
  · exact ⟨rfl, rfl, rfl⟩

theorem cfPair_acc (bs : List (Body ℝ)) (p : ℕ × ℕ) (h1 : p.1 < bs.length)
    (h2 : p.2 < bs.length) (hne : p.1 ≠ p.2) (m : ℕ) (d : Fin 3) :
    accOf (computeForcesPair bs p) m d = accOf bs m d + pairContrib bs p m d := by
  unfold computeForcesPair pairContrib accOf
  dsimp only
  split
  · rcases eq_or_ne p.2 m with h | h
    · subst h
      rw [getD_set_self _ _ _ (by simpa using h2)]
      rw [if_neg (fun hc => hne (hc.trans rfl)), if_pos rfl]
      ring
    · rw [getD_set_ne _ _ _ _ h]
      rcases eq_or_ne p.1 m with h' | h'
      · subst h'
        rw [getD_set_self _ _ _ h1]
        rw [if_pos rfl, if_neg h]
        ring
      · rw [getD_set_ne _ _ _ _ h']
        rw [if_neg h', if_neg h]
        ring
  · ring

theorem pairContrib_congr (bs' bs : List (Body ℝ))
    (hmass : ∀ k, massOf bs' k = massOf bs k) (hpos : ∀ k, posOf bs' k = posOf bs k)
    (p : ℕ × ℕ) (m : ℕ) (d : Fin 3) : pairContrib bs' p m d = pairContrib bs p m d := by
  unfold pairContrib Body.vector_to
  dsimp only
  rw [show (bs'.getD p.1 default).position = (bs.getD p.1 default).position from hpos p.1,
    show (bs'.getD p.2 default).position = (bs.getD p.2 default).position from hpos p.2,
    show (bs'.getD p.1 default).mass = (bs.getD p.1 default).mass from hmass p.1,
    show (bs'.getD p.2 default).mass = (bs.getD p.2 default).mass from hmass p.2]

theorem foldl_cfPair_props : ∀ (L : List (ℕ × ℕ)) (bs : List (Body ℝ)),
    (∀ p ∈ L, p.1 < bs.length ∧ p.2 < bs.length ∧ p.1 ≠ p.2) →
    (L.foldl computeForcesPair bs).length = bs.length ∧
    (∀ m, massOf (L.foldl computeForcesPair bs) m = massOf bs m ∧
      posOf (L.foldl computeForcesPair bs) m = posOf bs m ∧
      velOf (L.foldl computeForcesPair bs) m = velOf bs m) ∧
    ∀ m d, accOf (L.foldl computeForcesPair bs) m d =
      accOf bs m d + ((L.map fun p => pairContrib bs p m d).sum) := by
  intro L
  induction L with
  | nil => intro bs _; exact ⟨rfl, fun m => ⟨rfl, rfl, rfl⟩, fun m d => by simp⟩
  | cons p t ih =>
    intro bs hL
    obtain ⟨hp1, hp2, hpne⟩ := hL p (List.mem_cons_self p t)
    have hlen' : (computeForcesPair bs p).length = bs.length := cfPair_length bs p
    have hbounds : ∀ q ∈ t, q.1 < (computeForcesPair bs p).length ∧
        q.2 < (computeForcesPair bs p).length ∧ q.1 ≠ q.2 := by
      rw [hlen']
      exact fun q hq => hL q (List.mem_cons_of_mem p hq)
    obtain ⟨ihlen, ihkeep, ihacc⟩ := ih (computeForcesPair bs p) hbounds
    have hkeep1 := fun m => cfPair_keep bs p hp1 hp2 m
    refine ⟨?_, ?_, ?_⟩
    · rw [List.foldl_cons, ihlen, hlen']
    · intro m
      rw [List.foldl_cons]
      exact ⟨(ihkeep m).1.trans (hkeep1 m).1, (ihkeep m).2.1.trans (hkeep1 m).2.1,
        (ihkeep m).2.2.trans (hkeep1 m).2.2⟩
    · intro m d
      rw [List.foldl_cons, ihacc m d, cfPair_acc bs p hp1 hp2 hpne m d]
      have hmapeq : (t.map fun q => pairContrib (computeForcesPair bs p) q m d) =
          t.map fun q => pairContrib bs q m d :=
        List.map_congr_left fun q _ =>
          pairContrib_congr _ _ (fun k => (hkeep1 k).1) (fun k => (hkeep1 k).2.1) q m d
      rw [hmapeq, List.map_cons, List.sum_cons]
      ring

theorem getD_eq_getElem_mem (bodies : List (Body ℝ)) (k : ℕ) (hk : k < bodies.length) :
    bodies.getD k default ∈ bodies := by
  have h : bodies.getD k default = bodies[k] := by
    rw [List.getD_eq_getElem?_getD, List.getElem?_eq_getElem hk]
    rfl
  rw [h]
  exact List.getElem_mem hk

theorem distance_to_symm (x y : Body ℝ) : x.distance_to y = y.distance_to x := by
  unfold Body.distance_to
  congr 1
  ring

theorem cancel_mass (Gc Ma Mj D Pa Pj : ℝ) (hMa : Ma ≠ 0) :
    Gc * Ma * Mj / (D * D * D) * (Pj - Pa) / Ma = Gc * Mj / D ^ 3 * (Pj - Pa) := by
  have h : Gc * Ma * Mj / (D * D * D) * (Pj - Pa) / Ma =
      (Ma / Ma) * (Gc * Mj / (D * D * D) * (Pj - Pa)) := by ring
  rw [h, div_self hMa, one_mul]
  ring

theorem cancel_mass_neg (Gc Ma Mj D Pa Pj : ℝ) (hMj : Mj ≠ 0) :
    -(Gc * Ma * Mj / (D * D * D) * (Pj - Pa) / Mj) = Gc * Ma / D ^ 3 * (Pa - Pj) := by
  have h : -(Gc * Ma * Mj / (D * D * D) * (Pj - Pa) / Mj) =
      (Mj / Mj) * (Gc * Ma / (D * D * D) * (Pa - Pj)) := by ring
  rw [h, div_self hMj, one_mul]
  ring

theorem pairContrib_term (bodies : List (Body ℝ)) (hm : ∀ b ∈ bodies, b.mass ≠ 0)
    (m : ℕ) (hmn : m < bodies.length) (d : Fin 3) (a j : ℕ) (haj : a < j)
    (hjn : j < bodies.length) :
    pairContrib bodies (a, j) m d =
      (if a = m then
        (if 0 < (bodies.getD m default).distance_to (bodies.getD j default) then
          G * (bodies.getD j default).mass /
            ((bodies.getD m default).distance_to (bodies.getD j default)) ^ 3 *
            ((bodies.getD j default).position d - (bodies.getD m default).position d)
        else 0) else 0) +
      (if j = m then
        (if 0 < (bodies.getD m default).distance_to (bodies.getD a default) then
          G * (bodies.getD a default).mass /
            ((bodies.getD m default).distance_to (bodies.getD a default)) ^ 3 *
            ((bodies.getD a default).position d - (bodies.getD m default).position d)
        else 0) else 0) := by
  have hmass_ne : ∀ k, k < bodies.length → (bodies.getD k default).mass ≠ 0 :=
    fun k hk => hm _ (getD_eq_getElem_mem bodies k hk)
  have key : ∀ x y : Body ℝ,
      Real.sqrt (x.vector_to y 0 * x.vector_to y 0 + x.vector_to y 1 * x.vector_to y 1 +
        x.vector_to y 2 * x.vector_to y 2) = x.distance_to y := fun x y => rfl
  unfold pairContrib
  dsimp only
  rw [key]
  rcases eq_or_ne a m with ha | ha
  · rw [← ha]
    have hjm : j ≠ a := by omega
    rw [if_pos rfl, if_neg hjm, if_pos rfl, if_neg hjm, add_zero, add_zero]
    split
    · next hr =>
      unfold Body.vector_to
      exact cancel_mass G _ _ _ _ _ (hmass_ne a (by omega))
    · rfl
  · rcases eq_or_ne j m with hj | hj
    · rw [← hj]
      have haj2 : a ≠ j := by omega
      rw [if_neg haj2, if_pos rfl, if_neg haj2, if_pos rfl, zero_add, zero_add,
        distance_to_symm (bodies.getD j default) (bodies.getD a default)]
      split
      · next hr =>
        unfold Body.vector_to
        exact cancel_mass_neg G _ _ _ _ _ (hmass_ne j hjn)
      · rfl
    · rw [if_neg ha, if_neg hj, if_neg ha, if_neg hj]
      split <;> simp

theorem pairContrib_regroup (bodies : List (Body ℝ)) (hm : ∀ b ∈ bodies, b.mass ≠ 0)
    (m : ℕ) (hmn : m < bodies.length) (d : Fin 3) :
    (∑ a ∈ Finset.range bodies.length, ∑ j ∈ Finset.Ico (a + 1) bodies.length,
      pairContrib bodies (a, j) m d) =
      ∑ j ∈ (Finset.range bodies.length).erase m,
        (if 0 < (bodies.getD m default).distance_to (bodies.getD j default) then
          G * (bodies.getD j default).mass /
            ((bodies.getD m default).distance_to (bodies.getD j default)) ^ 3 *
            ((bodies.getD j default).position d - (bodies.getD m default).position d)
        else 0) := by
  set n := bodies.length with hn
  set g : ℕ → ℝ := fun j =>
    (if 0 < (bodies.getD m default).distance_to (bodies.getD j default) then
      G * (bodies.getD j default).mass /
        ((bodies.getD m default).distance_to (bodies.getD j default)) ^ 3 *
        ((bodies.getD j default).position d - (bodies.getD m default).position d)
    else 0) with hg
  have hterm : ∀ a ∈ Finset.range n, ∀ j ∈ Finset.Ico (a + 1) n,
      pairContrib bodies (a, j) m d =
        (if a = m then g j else 0) + (if j = m then g a else 0) := by
    intro a _ j hj
    rw [Finset.mem_Ico] at hj
    exact pairContrib_term bodies hm m hmn d a j (by omega) (by omega)
  calc (∑ a ∈ Finset.range n, ∑ j ∈ Finset.Ico (a + 1) n, pairContrib bodies (a, j) m d)
      = ∑ a ∈ Finset.range n, ∑ j ∈ Finset.Ico (a + 1) n,
          ((if a = m then g j else 0) + (if j = m then g a else 0)) :=
        Finset.sum_congr rfl fun a ha => Finset.sum_congr rfl fun j hj => hterm a ha j hj
    _ = (∑ a ∈ Finset.range n, ∑ j ∈ Finset.Ico (a + 1) n, (if a = m then g j else 0)) +
        ∑ a ∈ Finset.range n, ∑ j ∈ Finset.Ico (a + 1) n, (if j = m then g a else 0) := by
        rw [← Finset.sum_add_distrib]
        exact Finset.sum_congr rfl fun a _ => Finset.sum_add_distrib
    _ = (∑ j ∈ Finset.Ico (m + 1) n, g j) + ∑ a ∈ Finset.range m, g a := by
        congr 1
        · have h1 : ∀ a, (∑ j ∈ Finset.Ico (a + 1) n, (if a = m then g j else 0)) =
              (if a = m then ∑ j ∈ Finset.Ico (a + 1) n, g j else 0) := by
            intro a
            split <;> simp
          rw [Finset.sum_congr rfl fun a _ => h1 a,
            Finset.sum_ite_eq' (Finset.range n) m (fun a => ∑ j ∈ Finset.Ico (a + 1) n, g j),
            if_pos (Finset.mem_range.mpr hmn)]
        · have h2 : ∀ a, (∑ j ∈ Finset.Ico (a + 1) n, (if j = m then g a else 0)) =
              (if m ∈ Finset.Ico (a + 1) n then g a else 0) := fun a =>
            Finset.sum_ite_eq' (Finset.Ico (a + 1) n) m (fun _ => g a)
          rw [Finset.sum_congr rfl fun a _ => h2 a]
          have h3 : ∀ a ∈ Finset.range n, (if m ∈ Finset.Ico (a + 1) n then g a else 0) =
              (if a < m then g a else 0) := by
            intro a _
            have hiff : (m ∈ Finset.Ico (a + 1) n) ↔ (a < m) := by
              simp only [Finset.mem_Ico]
              exact ⟨fun h => by omega, fun h => by omega⟩
            exact if_congr hiff rfl rfl
          rw [Finset.sum_congr rfl h3, ← Finset.sum_filter,
            show (Finset.range n).filter (· < m) = Finset.range m from by
              ext x; simp [Finset.mem_filter, Finset.mem_range]; omega]
    _ = ∑ j ∈ (Finset.range n).erase m, g j := by
        have hsplit : (Finset.range n).erase m = Finset.range m ∪ Finset.Ico (m + 1) n := by
          ext x
          simp only [Finset.mem_erase, Finset.mem_range, Finset.mem_union, Finset.mem_Ico]
          omega
        have hdisj : Disjoint (Finset.range m) (Finset.Ico (m + 1) n) := by
          rw [Finset.disjoint_left]
          intro x hx hx'
          rw [Finset.mem_range] at hx
          rw [Finset.mem_Ico] at hx'
          omega
        rw [hsplit, Finset.sum_union hdisj, add_comm]

theorem pairIndices_mem {n : ℕ} {p : ℕ × ℕ} (hp : p ∈ pairIndices n) :
    p.1 < p.2 ∧ p.2 < n := by
  unfold pairIndices at hp
  simp only [List.mem_flatMap, List.mem_map, List.mem_range] at hp
  obtain ⟨i, hi, j, hj, rfl⟩ := hp
  rw [List.mem_range'_1] at hj
  exact ⟨by omega, by omega⟩

theorem reset_keep (bodies : List (Body ℝ)) (k : ℕ) :
    massOf (bodies.map Body.reset_acceleration) k = massOf bodies k ∧
    posOf (bodies.map Body.reset_acceleration) k = posOf bodies k ∧
    velOf (bodies.map Body.reset_acceleration) k = velOf bodies k ∧
    ∀ dd : Fin 3, accOf (bodies.map Body.reset_acceleration) k dd = 0 := by
  unfold massOf posOf velOf accOf
  rcases lt_or_le k bodies.length with h | h
  · rw [List.getD_eq_getElem?_getD, List.getElem?_map, List.getD_eq_getElem?_getD,
      List.getElem?_eq_getElem h]
    exact ⟨rfl, rfl, rfl, fun dd => rfl⟩
  · have hd1 : (bodies.map Body.reset_acceleration).getD k default = default :=
      List.getD_eq_default _ _ (by simpa using h)
    have hd2 : bodies.getD k default = default := List.getD_eq_default _ _ h
    rw [hd1, hd2]
    exact ⟨rfl, rfl, rfl, fun dd => rfl⟩

/-- C2: after `Simulator::compute_forces`, each body `i`'s acceleration is
exactly `Σ_{j ≠ i, d(i,j) > 0} G·m_j/d(i,j)³·(p_j − p_i)` with
`G = 6.67430×10⁻¹¹` (the pairwise `i<j` accumulation with the third-law
reaction regrouped over `j ≠ i`, exact in real arithmetic for nonzero
masses), and positions and velocities are unchanged. -/
theorem compute_forces_net_acceleration (bodies : List (Body ℝ))
    (hm : ∀ b ∈ bodies, b.mass ≠ 0) (i : ℕ) (hi : i < bodies.length) :
    (∀ d : Fin 3, accOf (Simulator.compute_forces bodies) i d =
      ∑ j ∈ (Finset.range bodies.length).erase i,
        (if 0 < (bodies.getD i default).distance_to (bodies.getD j default) then
          G * (bodies.getD j default).mass /
            ((bodies.getD i default).distance_to (bodies.getD j default)) ^ 3 *
            ((bodies.getD j default).position d - (bodies.getD i default).position d)
        else 0)) ∧
    posOf (Simulator.compute_forces bodies) i = posOf bodies i ∧
    velOf (Simulator.compute_forces bodies) i = velOf bodies i := by
  have hcf : Simulator.compute_forces bodies =
      (pairIndices (bodies.map Body.reset_acceleration).length).foldl computeForcesPair
        (bodies.map Body.reset_acceleration) := rfl
  have hlenr : (bodies.map Body.reset_acceleration).length = bodies.length := by simp
  have hbounds : ∀ p ∈ pairIndices (bodies.map Body.reset_acceleration).length,
      p.1 < (bodies.map Body.reset_acceleration).length ∧
        p.2 < (bodies.map Body.reset_acceleration).length ∧ p.1 ≠ p.2 := by
    intro p hp
    have h2 := pairIndices_mem hp
    exact ⟨by omega, h2.2, by omega⟩
  obtain ⟨hfl, hfkeep, hfacc⟩ := foldl_cfPair_props _ _ hbounds
  rw [hcf]
  refine ⟨?_, ?_, ?_⟩
  · intro d
    rw [hfacc i d, (reset_keep bodies i).2.2.2 d, zero_add]
    have hcongr : ((pairIndices (bodies.map Body.reset_acceleration).length).map
        fun p => pairContrib (bodies.map Body.reset_acceleration) p i d) =
        (pairIndices bodies.length).map fun p => pairContrib bodies p i d := by
      rw [hlenr]
      exact List.map_congr_left fun p _ => pairContrib_congr _ _
        (fun k => (reset_keep bodies k).1) (fun k => (reset_keep bodies k).2.1) p i d
    rw [hcongr, sum_pairIndices (fun p => pairContrib bodies p i d) bodies.length,
      pairContrib_regroup bodies hm i hi d]
  · rw [(hfkeep i).2.1, (reset_keep bodies i).2.1]
  · rw [(hfkeep i).2.2, (reset_keep bodies i).2.2.1]

/-- Witness for C2: the two-body ensemble `twoBodyX`, body `0`,
x-component. -/
theorem compute_forces_net_acceleration_witness :
    (accOf (Simulator.compute_forces twoBodyX) 0 0 =
      ∑ j ∈ (Finset.range twoBodyX.length).erase 0,
        (if 0 < (twoBodyX.getD 0 default).distance_to (twoBodyX.getD j default) then
          G * (twoBodyX.getD j default).mass /
            ((twoBodyX.getD 0 default).distance_to (twoBodyX.getD j default)) ^ 3 *
            ((twoBodyX.getD j default).position 0 - (twoBodyX.getD 0 default).position 0)
        else 0)) ∧
    posOf (Simulator.compute_forces twoBodyX) 0 = posOf twoBodyX 0 ∧
    velOf (Simulator.compute_forces twoBodyX) 0 = velOf twoBodyX 0 :=
  ⟨(compute_forces_net_acceleration twoBodyX
      (by intro b hb; fin_cases hb <;> simp [Body.new]) 0 (by simp [twoBodyX])).1 0,
   (compute_forces_net_acceleration twoBodyX
      (by intro b hb; fin_cases hb <;> simp [Body.new]) 0 (by simp [twoBodyX])).2.1,
   (compute_forces_net_acceleration twoBodyX
      (by intro b hb; fin_cases hb <;> simp [Body.new]) 0 (by simp [twoBodyX])).2.2⟩

/-- C7: a pair of bodies at identical coordinates is skipped by the
distance guard of `Simulator::compute_forces` — the pair's fold step is
the identity (no arithmetic in the degenerate branch), and for a
two-body ensemble of coincident bodies the resulting accelerations are
exactly zero.  (In the real-number model division is never taken at the
degenerate pair, which is how the absence of NaN/Inf manifests.) -/
theorem compute_forces_zero_distance :
    (∀ (bs : List (Body ℝ)) (p : ℕ × ℕ),
      (bs.getD p.1 default).position = (bs.getD p.2 default).position →
      computeForcesPair bs p = bs) ∧
    ∀ b1 b2 : Body ℝ, b1.position = b2.position →
      Simulator.compute_forces [b1, b2] = [b1.reset_acceleration, b2.reset_acceleration] ∧
      ∀ d : Fin 3, accOf (Simulator.compute_forces [b1, b2]) 0 d = 0 ∧
        accOf (Simulator.compute_forces [b1, b2]) 1 d = 0 := by
  have hskip : ∀ (bs : List (Body ℝ)) (p : ℕ × ℕ),
      (bs.getD p.1 default).position = (bs.getD p.2 default).position →
      computeForcesPair bs p = bs := by
    intro bs p hpos
    unfold computeForcesPair
    dsimp only
    rw [show Real.sqrt ((Body.vector_to (bs.getD p.1 default) (bs.getD p.2 default)) 0 *
        (Body.vector_to (bs.getD p.1 default) (bs.getD p.2 default)) 0 +
        (Body.vector_to (bs.getD p.1 default) (bs.getD p.2 default)) 1 *
        (Body.vector_to (bs.getD p.1 default) (bs.getD p.2 default)) 1 +
        (Body.vector_to (bs.getD p.1 default) (bs.getD p.2 default)) 2 *
        (Body.vector_to (bs.getD p.1 default) (bs.getD p.2 default)) 2) = 0 from by
      unfold Body.vector_to
      rw [hpos]
      simp]
    rw [if_neg (lt_irrefl 0)]
  refine ⟨hskip, ?_⟩
  intro b1 b2 hpos
  have hcf : Simulator.compute_forces [b1, b2] =
      computeForcesPair [b1.reset_acceleration, b2.reset_acceleration] (0, 1) := rfl
  have hz : computeForcesPair [b1.reset_acceleration, b2.reset_acceleration] (0, 1) =
      [b1.reset_acceleration, b2.reset_acceleration] := by
    apply hskip
    simpa [Body.reset_acceleration] using hpos
  have hres : Simulator.compute_forces [b1, b2] =
      [b1.reset_acceleration, b2.reset_acceleration] := hcf.trans hz
  refine ⟨hres, fun d => ?_⟩
  rw [hres]
  exact ⟨rfl, rfl⟩

/-- Witness for C7: two coincident unit-mass bodies at the origin. -/
theorem compute_forces_zero_distance_witness :
    Simulator.compute_forces [Body.new 1 ![0, 0, 0] ![0, 0, 0],
        Body.new 1 ![0, 0, 0] ![1, 0, 0]] =
      [(Body.new (1 : ℝ) ![0, 0, 0] ![0, 0, 0]).reset_acceleration,
        (Body.new (1 : ℝ) ![0, 0, 0] ![1, 0, 0]).reset_acceleration] ∧
    accOf (Simulator.compute_forces [Body.new 1 ![0, 0, 0] ![0, 0, 0],
        Body.new 1 ![0, 0, 0] ![1, 0, 0]]) 0 0 = 0 ∧
    accOf (Simulator.compute_forces [Body.new 1 ![0, 0, 0] ![0, 0, 0],
        Body.new 1 ![0, 0, 0] ![1, 0, 0]]) 1 0 = 0 :=
  ⟨(compute_forces_zero_distance.2 (Body.new 1 ![0, 0, 0] ![0, 0, 0])
      (Body.new 1 ![0, 0, 0] ![1, 0, 0]) rfl).1,
   ((compute_forces_zero_distance.2 (Body.new 1 ![0, 0, 0] ![0, 0, 0])
      (Body.new 1 ![0, 0, 0] ![1, 0, 0]) rfl).2 0).1,
   ((compute_forces_zero_distance.2 (Body.new 1 ![0, 0, 0] ![0, 0, 0])
      (Body.new 1 ![0, 0, 0] ![1, 0, 0]) rfl).2 0).2⟩

/-- C5 counterexample: `configWithNonPositiveMass` contains a body section
whose mass is `0 ≤ 0` (its `to_body` is a typed failure), yet
`parse_ini_content` succeeds, returning only the valid second body of
mass `5` — it does not surface a failure to the caller. -/
theorem parse_drops_nonpositive_mass_section :
    (parse_ini_content parseDecimal configWithNonPositiveMass).toOption.map
        (fun cfg => cfg.bodies.map fun b => b.mass) = some [5] ∧
      (BodyData.new (K := ℚ)).to_body.isOk = false := by
  constructor
  · decide
  · decide

end NBody
